import Mathlib

/-!
# cuttle: topology resolver and enrollment projector (`node/node.go`)

A shallow embedding of `src/node/node.go`.

* Go strings are Lean `String`s; `fmt.Sprintf` with `%s` verbs is string
  concatenation with the literal separators of the format, and `%d` of a Go
  `int` is the decimal rendering `toString` of an `Int`.
* A Go slice is a `List`; a nil slice and an empty slice are both `[]` (the
  code only observes slices through `len`, `range` and `append`).
* `nodes = append(nodes, n)` is `nodes ++ [n]`; a `for ... range` loop that
  appends to an accumulator is a `List.foldl` over the ranged slice.
* A Go pointer is an `Option`, `none` being nil; a call that dereferences nil
  panics, and a function that can panic returns an `Option` whose `none` is
  the panic.
* Go `int` counters are `Int`s: no counter of this file wraps around (the
  template loop stops below `count`, and the user loop would need `2^63`
  appended names to reach the largest `int`).
-/

namespace Cuttle

/-! ## Data model -/

/-- Modelled from the spec: the type `constant.NodeType` and its constants
`constant.Orderer`, `constant.Peer`, `constant.Admin`, `constant.User` are
declared in a package that is not among the sources. The spec gives the
kind as one of OrderingNode, PeerNode, Admin, User, four distinct values. -/
inductive NodeType where
  | Orderer
  | Peer
  | Admin
  | User
  deriving DecidableEq, Repr

/-- The type `config.Spec`, through the fields `node.go` reads. -/
structure Spec where
  Hostname : String
  CommonName : String
  deriving DecidableEq, Repr

/-- The type `config.Template`, through the fields `node.go` reads. -/
structure Template where
  Start : Int
  Count : Int
  deriving DecidableEq, Repr

/-- The type `config.Users`, through the field `node.go` reads. -/
structure Users where
  Count : Int
  deriving DecidableEq, Repr

/-- The type `config.Subject`: the flat subject of the configuration. -/
structure Subject where
  Country : String
  Province : String
  Locality : String
  Organization : String
  OrganizationalUnit : String
  deriving DecidableEq, Repr

/-- An element of `cConfig.OrdererOrgs`, through the fields `node.go` reads. -/
structure OrdererOrg where
  Name : String
  Domain : String
  CaFile : String
  Specs : List Spec
  deriving DecidableEq, Repr

/-- An element of `cConfig.PeerOrgs`, through the fields `node.go` reads. -/
structure PeerOrg where
  Name : String
  Domain : String
  CaFile : String
  Specs : List Spec
  Template : Template
  Users : Users
  deriving DecidableEq, Repr

/-- The type `config.CryptoConfig`, through the fields `node.go` reads. -/
structure CryptoConfig where
  OrdererOrgs : List OrdererOrg
  PeerOrgs : List PeerOrg
  Subject : Subject
  Output : String
  deriving DecidableEq, Repr

/-- The fields of `pkix.Name` that `node.go` writes or reads. -/
structure PkixName where
  Country : List String
  Organization : List String
  OrganizationalUnit : List String
  Locality : List String
  Province : List String
  CommonName : String
  deriving DecidableEq, Repr

/-- The struct `Node`; the pointer field `Subject *pkix.Name` is an `Option`,
and the field `Type` is `Type_` (`Type` is a reserved word). -/
structure Node where
  Name : String
  CaFile : String
  Type_ : NodeType
  Subject : Option PkixName
  Output : String
  OrgName : String
  deriving DecidableEq, Repr

/-! ## Operations -/

/-- `getSubject`: the commented-out fields stay at their zero value. -/
def getSubject (subject : Subject) (commonName : String) : Option PkixName :=
  some
    { Country := [subject.Country]
      Organization := []
      OrganizationalUnit := []
      Locality := [subject.Country]
      Province := [subject.Country]
      CommonName := commonName }

/-- `getOrdererOutput`: `fmt.Sprintf("%s/%s/%s/%s/%s", path0, ..., path4)`. -/
def getOrdererOutput (name : String) (domain : String) (nodeType : NodeType)
    (basePath : String) : String :=
  let path0 := basePath
  let path1 := "ordererOrganizations"
  let path2 := domain
  let path3 := if nodeType = NodeType.Orderer then "orderers" else "users"
  let path4 := name
  path0 ++ "/" ++ path1 ++ "/" ++ path2 ++ "/" ++ path3 ++ "/" ++ path4

/-- `getPeerOutput`: `fmt.Sprintf("%s/%s/%s/%s/%s", path0, ..., path4)`. -/
def getPeerOutput (name : String) (domain : String) (nodeType : NodeType)
    (basePath : String) : String :=
  let path0 := basePath
  let path1 := "peerOrganizations"
  let path2 := domain
  let path3 := if nodeType = NodeType.Peer then "peers" else "users"
  let path4 := name
  path0 ++ "/" ++ path1 ++ "/" ++ path2 ++ "/" ++ path3 ++ "/" ++ path4

/-- The loop `for i := start; i < count; i++` of `getPeers`, entered with
counter `i` and accumulator `result`. -/
def getPeersLoop (domain : String) (count : Int) (i : Int) (result : List String) :
    List String :=
  if i < count then
    getPeersLoop domain count (i + 1) (result ++ ["peer" ++ toString i ++ "." ++ domain])
  else
    result
termination_by (count - i).toNat
decreasing_by omega

/-- `getPeers`: one name per explicit spec when there are specs, otherwise the
names of the numeric template. -/
def getPeers (specs : List Spec) (temp : Template) (domain : String) : List String :=
  let result : List String := []
  if 0 < specs.length then
    specs.foldl
      (fun result value =>
        if value.CommonName ≠ "" then
          result ++ [value.CommonName]
        else
          result ++ [value.Hostname ++ "." ++ domain])
      result
  else
    let count := temp.Count
    let start := temp.Start
    getPeersLoop domain count start result

/-- The loop `for i := 1; i <= count; i++` of `getUsers`, entered with counter
`i` and accumulator `result`. -/
def getUsersLoop (count : Int) (i : Int) (result : List String) : List String :=
  if i ≤ count then
    getUsersLoop count (i + 1) (result ++ ["User" ++ toString i])
  else
    result
termination_by (count + 1 - i).toNat
decreasing_by omega

/-- `getUsers`: `User1` ... `User<count>` when `count > 0`, otherwise nil. -/
def getUsers (count : Int) : List String :=
  let result : List String := []
  if count > 0 then
    getUsersLoop count 1 result
  else
    []

/-- Body of the loop over `value.Specs` of an ordering organization. -/
def ordererSpecNode (cConfig : CryptoConfig) (value : OrdererOrg) (o : Spec) : Node :=
  let name := o.Hostname ++ "." ++ value.Domain
  let name := if o.CommonName ≠ "" then o.CommonName else name
  let type := NodeType.Orderer
  { Name := name
    Type_ := type
    CaFile := value.CaFile
    Subject := getSubject cConfig.Subject name
    Output := getOrdererOutput name value.Domain type cConfig.Output
    OrgName := value.Name }

/-- Body of the loop over `[]string{"Admin", "User1"}` of an ordering
organization. -/
def ordererUserNode (cConfig : CryptoConfig) (value : OrdererOrg) (item : String) : Node :=
  let name := item ++ "@" ++ value.Domain
  let type := if item = "Admin" then NodeType.Admin else NodeType.User
  { Name := name
    Type_ := type
    CaFile := value.CaFile
    Subject := getSubject cConfig.Subject name
    Output := getOrdererOutput name value.Domain type cConfig.Output
    OrgName := value.Name }

/-- Body of the loop over `peers` of a peer organization. -/
def peerNode (cConfig : CryptoConfig) (value : PeerOrg) (p : String) : Node :=
  let name := p
  let type := NodeType.Peer
  { Name := name
    Type_ := type
    CaFile := value.CaFile
    Subject := getSubject cConfig.Subject name
    Output := getPeerOutput name value.Domain type cConfig.Output
    OrgName := value.Name }

/-- Body of the loop over `u` (`"Admin"` followed by `getUsers`) of a peer
organization. -/
def peerUserNode (cConfig : CryptoConfig) (value : PeerOrg) (item : String) : Node :=
  let name := item ++ "@" ++ value.Domain
  let type := if item = "Admin" then NodeType.Admin else NodeType.User
  { Name := name
    Type_ := type
    CaFile := value.CaFile
    Subject := getSubject cConfig.Subject name
    Output := getPeerOutput name value.Domain type cConfig.Output
    OrgName := value.Name }

/-- `parseConfigToNodes`. The Go result `([]Node, error)` is the pair of the
node slice and the error, `none` being Go's `nil` error. -/
def parseConfigToNodes (cConfig : CryptoConfig) : List Node × Option String :=
  let nodes : List Node := []
  let nodes :=
    cConfig.OrdererOrgs.foldl
      (fun nodes value =>
        let nodes :=
          value.Specs.foldl (fun nodes o => nodes ++ [ordererSpecNode cConfig value o]) nodes
        let nodes :=
          ["Admin", "User1"].foldl
            (fun nodes item => nodes ++ [ordererUserNode cConfig value item]) nodes
        nodes)
      nodes
  let nodes :=
    cConfig.PeerOrgs.foldl
      (fun nodes value =>
        let peers := getPeers value.Specs value.Template value.Domain
        let nodes := peers.foldl (fun nodes p => nodes ++ [peerNode cConfig value p]) nodes
        let u := ["Admin"]
        let users := getUsers value.Users.Count
        let u := u ++ users
        let nodes := u.foldl (fun nodes item => nodes ++ [peerUserNode cConfig value item]) nodes
        nodes)
      nodes
  (nodes, none)

/-! ## Enrollment projector -/

/-- The type `config.AttrsConfig`, through the fields `node.go` writes. -/
structure AttrsConfig where
  Name : String
  Value : String
  deriving DecidableEq, Repr

/-- The type `config.RegisterConfig`, through the fields `node.go` writes; the
field `Type` is `Type_`. -/
structure RegisterConfig where
  Registered : Bool
  EnrollID : String
  Type_ : String
  Secret : String
  MaxEnrollments : Int
  Affiliation : String
  Attrs : List AttrsConfig
  deriving DecidableEq, Repr

/-- The type `config.EnrollConfig`, through the fields `node.go` writes. -/
structure EnrollConfig where
  EnrollID : String
  Secret : String
  Subject : Subject
  deriving DecidableEq, Repr

/-- The type `config.NodeConfig`, through the fields `node.go` writes. -/
structure NodeConfig where
  Name : String
  CaFile : String
  Output : String
  Register : RegisterConfig
  Enroll : EnrollConfig
  deriving DecidableEq, Repr

/-- The type `config.SpeConfig`, through the field `node.go` writes. -/
structure SpeConfig where
  Nodes : List NodeConfig
  deriving DecidableEq, Repr

/-- `ParseSubject`. The argument is a pointer: on the nil pointer the first
field access `subject.Country` is a nil dereference, a run-time panic, which
is the result `none`. -/
def ParseSubject (subject : Option PkixName) : Option Subject :=
  match subject with
  | none => none
  | some subject =>
    let result : Subject :=
      { Country := "", Province := "", Locality := "", Organization := "",
        OrganizationalUnit := "" }
    let result :=
      if h : 0 < subject.Country.length then
        { result with Country := subject.Country[0] }
      else result
    let result :=
      if h : 0 < subject.Province.length then
        { result with Province := subject.Province[0] }
      else result
    let result :=
      if h : 0 < subject.Locality.length then
        { result with Locality := subject.Locality[0] }
      else result
    let result :=
      if h : 0 < subject.Organization.length then
        { result with Organization := subject.Organization[0] }
      else result
    let result :=
      if h : 0 < subject.OrganizationalUnit.length then
        { result with OrganizationalUnit := subject.OrganizationalUnit[0] }
      else result
    some result

/-- The composite literal `config.NodeConfig{...}` of the loop body of
`ParseNodesToSpeConfig`; it has no value when `ParseSubject` panics. The
conversion `string([]byte(value.Type))` gives the string that the kind is:
the constants of `constant` are not among the sources, so the string of each
kind is the parameter `typeString`. -/
def nodeConfigOf (typeString : NodeType → String) (value : Node) : Option NodeConfig :=
  match ParseSubject value.Subject with
  | none => none
  | some subject =>
    some
      { Name := value.Name
        CaFile := value.CaFile
        Output := value.Output
        Register :=
          { Registered := false
            EnrollID := value.Name
            Type_ := typeString value.Type_
            Secret := "adminpwd"
            MaxEnrollments := -1
            Affiliation := "."
            Attrs :=
              [{ Name := "hf.Registrar.Roles", Value := typeString value.Type_ },
               { Name := "hf.Revoker", Value := "false" }] }
        Enroll :=
          { EnrollID := value.Name
            Secret := "adminpwd"
            Subject := subject } }

/-- `ParseNodesToSpeConfig`. The outer `Option` is `none` when the call
panics; otherwise the Go result `(*config.SpeConfig, error)` is the pair of
the pointer (`some` for the allocated batch) and the error (`none` for
`nil`). -/
def ParseNodesToSpeConfig (typeString : NodeType → String) (nodes : List Node) :
    Option (Option SpeConfig × Option String) :=
  let speConfig : SpeConfig := { Nodes := [] }
  match
    nodes.foldlM
      (fun (speConfig : SpeConfig) value =>
        match nodeConfigOf typeString value with
        | none => none
        | some nodeConfig => some { speConfig with Nodes := speConfig.Nodes ++ [nodeConfig] })
      speConfig
  with
  | none => none
  | some speConfig => some (some speConfig, none)

/-! ## Blocks of one organization -/

/-- The node slice `parseConfigToNodes` returns for the ordering organizations
`os` and the peer organizations `ps`, under the global subject `subject` and
the output directory `output`. -/
def resolve (subject : Subject) (output : String) (os : List OrdererOrg)
    (ps : List PeerOrg) : List Node :=
  (parseConfigToNodes
    { OrdererOrgs := os, PeerOrgs := ps, Subject := subject, Output := output }).1

/-- The nodes one iteration of the loop over `cConfig.OrdererOrgs` appends:
one per spec, then the nodes of `Admin` and `User1`. -/
def ordererOrgNodes (cConfig : CryptoConfig) (value : OrdererOrg) : List Node :=
  value.Specs.map (ordererSpecNode cConfig value) ++
    ["Admin", "User1"].map (ordererUserNode cConfig value)

/-- The nodes one iteration of the loop over `cConfig.PeerOrgs` appends: one
per name of `getPeers`, then one per entry of `u`. -/
def peerOrgNodes (cConfig : CryptoConfig) (value : PeerOrg) : List Node :=
  (getPeers value.Specs value.Template value.Domain).map (peerNode cConfig value) ++
    (["Admin"] ++ getUsers value.Users.Count).map (peerUserNode cConfig value)

/-- The name `getPeers` gives an explicit spec. -/
def specName (domain : String) (value : Spec) : String :=
  if value.CommonName ≠ "" then value.CommonName else value.Hostname ++ "." ++ domain

/-- The names of the numeric template: `peer<i>.<domain>` for `i` from `start`
up to `count` excluded. -/
def templateNames (start count : Int) (domain : String) : List String :=
  (List.range (count - start).toNat).map
    (fun (k : Nat) => "peer" ++ toString (start + (k : Int)) ++ "." ++ domain)

/-- The numbered users `User1` ... `User<k>`. -/
def userNames (k : Int) : List String :=
  (List.range k.toNat).map (fun (i : Nat) => "User" ++ toString ((i : Int) + 1))

/-- The configuration that carries only the global subject and the output
directory; the per-organization blocks read nothing else of it. -/
def baseConfig (subject : Subject) (output : String) : CryptoConfig :=
  { OrdererOrgs := [], PeerOrgs := [], Subject := subject, Output := output }

/-! ## Example descriptions -/

/-- The global subject of the examples. -/
def exampleSubject : Subject :=
  { Country := "CN", Province := "", Locality := "", Organization := "",
    OrganizationalUnit := "" }

/-- The ordering organization of the spec's end-to-end example. -/
def exampleOrdererOrg : OrdererOrg :=
  { Name := "Orderer", Domain := "example.com", CaFile := "ca.pem",
    Specs := [{ Hostname := "orderer0", CommonName := "" }] }

/-- The peer organization of the spec's end-to-end example. -/
def examplePeerOrg : PeerOrg :=
  { Name := "Org1", Domain := "org1.com", CaFile := "ca1.pem", Specs := [],
    Template := { Start := 0, Count := 2 }, Users := { Count := 1 } }

/-- The identity of `orderer0` in the example ordering organization. -/
def exampleOrdererNode : Node :=
  { Name := "orderer0.example.com"
    CaFile := "ca.pem"
    Type_ := NodeType.Orderer
    Subject := some
      { Country := ["CN"], Organization := [], OrganizationalUnit := [], Locality := ["CN"],
        Province := ["CN"], CommonName := "orderer0.example.com" }
    Output := "out/ordererOrganizations/example.com/orderers/orderer0.example.com"
    OrgName := "Orderer" }

/-- The identity of `User1` in the example peer organization. -/
def examplePeerUserNode : Node :=
  { Name := "User1@org1.com"
    CaFile := "ca1.pem"
    Type_ := NodeType.User
    Subject := some
      { Country := ["CN"], Organization := [], OrganizationalUnit := [], Locality := ["CN"],
        Province := ["CN"], CommonName := "User1@org1.com" }
    Output := "out/peerOrganizations/org1.com/users/User1@org1.com"
    OrgName := "Org1" }

/-! ## Closed forms of the projector and of the derived names -/

/-- The request `nodeConfigOf` builds for a node whose subject is present; the
subject of a node without one is left at the zero value here. -/
def requestOf (typeString : NodeType → String) (value : Node) : NodeConfig :=
  { Name := value.Name
    CaFile := value.CaFile
    Output := value.Output
    Register :=
      { Registered := false
        EnrollID := value.Name
        Type_ := typeString value.Type_
        Secret := "adminpwd"
        MaxEnrollments := -1
        Affiliation := "."
        Attrs :=
          [{ Name := "hf.Registrar.Roles", Value := typeString value.Type_ },
           { Name := "hf.Revoker", Value := "false" }] }
    Enroll :=
      { EnrollID := value.Name
        Secret := "adminpwd"
        Subject :=
          (ParseSubject value.Subject).getD
            { Country := "", Province := "", Locality := "", Organization := "",
              OrganizationalUnit := "" } } }

/-- An example value for the strings of the kinds: the table the spec
suggests in its section on the projector. -/
def exampleTypeString : NodeType → String
  | NodeType.Orderer => "orderer"
  | NodeType.Peer => "peer"
  | NodeType.Admin => "admin"
  | NodeType.User => "client"

/-- The names an ordering organization derives: one per spec, then the two
defaults. -/
def ordererOrgNames (value : OrdererOrg) : List String :=
  value.Specs.map (specName value.Domain) ++
    ["Admin@" ++ value.Domain, "User1@" ++ value.Domain]

/-- The names a peer organization derives: the spec names or, without specs,
the template names, then `Admin` and the numbered users. -/
def peerOrgNames (value : PeerOrg) : List String :=
  (if value.Specs ≠ [] then value.Specs.map (specName value.Domain)
    else templateNames value.Template.Start value.Template.Count value.Domain) ++
    ("Admin@" ++ value.Domain) ::
      (userNames value.Users.Count).map (fun u => u ++ "@" ++ value.Domain)

/-- The names a description derives, ordering organizations first. -/
def derivedNames (cConfig : CryptoConfig) : List String :=
  (cConfig.OrdererOrgs.map ordererOrgNames).flatten ++
    (cConfig.PeerOrgs.map peerOrgNames).flatten

/-- An identity whose subject pointer is nil. -/
def nilSubjectNode : Node :=
  { Name := "orderer0.example.com"
    CaFile := "ca.pem"
    Type_ := NodeType.Orderer
    Subject := none
    Output := "out/ordererOrganizations/example.com/orderers/orderer0.example.com"
    OrgName := "Orderer" }

/-- An ordering organization that lists the same host twice. -/
def duplicateSpecOrg : OrdererOrg :=
  { Name := "Orderer", Domain := "example.com", CaFile := "ca.pem",
    Specs := [{ Hostname := "orderer0", CommonName := "" },
              { Hostname := "orderer0", CommonName := "" }] }

/-- The description of the spec's two end-to-end examples together. -/
def exampleConfig : CryptoConfig :=
  { OrdererOrgs := [exampleOrdererOrg], PeerOrgs := [examplePeerOrg],
    Subject := exampleSubject, Output := "out" }

/-- A description with an empty domain, an empty hostname, a template that
counts backwards and a negative user count. -/
def malformedConfig : CryptoConfig :=
  { OrdererOrgs :=
      [{ Name := "", Domain := "", CaFile := "",
         Specs := [{ Hostname := "", CommonName := "" }, { Hostname := "", CommonName := "" }] }]
    PeerOrgs :=
      [{ Name := "", Domain := "", CaFile := "", Specs := [],
         Template := { Start := 3, Count := -1 }, Users := { Count := -2 } }]
    Subject := exampleSubject
    Output := "" }

/-! ## Loops as closed forms -/

theorem foldl_append_singleton {α β : Type} (f : α → β) (l : List α) (init : List β) :
    l.foldl (fun acc x => acc ++ [f x]) init = init ++ l.map f := by
  induction l generalizing init with
  | nil => simp
  | cons a t ih => simp [ih]

theorem foldl_append_block {α β : Type} (g : α → List β) (l : List α) (init : List β) :
    l.foldl (fun acc x => acc ++ g x) init = init ++ (l.map g).flatten := by
  induction l generalizing init with
  | nil => simp
  | cons a t ih => simp [ih]

theorem getPeersLoop_eq (domain : String) (count : Int) (n : Nat) :
    ∀ (i : Int) (result : List String), (count - i).toNat = n →
      getPeersLoop domain count i result =
        result ++ (List.range n).map
          (fun (k : Nat) => "peer" ++ toString (i + (k : Int)) ++ "." ++ domain) := by
  induction n with
  | zero =>
    intro i result h
    rw [getPeersLoop, if_neg (by omega)]
    simp
  | succ m ih =>
    intro i result h
    rw [getPeersLoop, if_pos (by omega), ih (i + 1) _ (by omega)]
    rw [List.range_succ_eq_map]
    simp [List.map_map, Function.comp_def, add_assoc, add_comm]
    intro a _
    rw [show (a : Int) + (i + 1) = i + ((a : Int) + 1) by ring]

theorem getUsersLoop_eq (count : Int) (n : Nat) :
    ∀ (i : Int) (result : List String), (count + 1 - i).toNat = n →
      getUsersLoop count i result =
        result ++ (List.range n).map (fun (k : Nat) => "User" ++ toString (i + (k : Int))) := by
  induction n with
  | zero =>
    intro i result h
    rw [getUsersLoop, if_neg (by omega)]
    simp
  | succ m ih =>
    intro i result h
    rw [getUsersLoop, if_pos (by omega), ih (i + 1) _ (by omega)]
    rw [List.range_succ_eq_map]
    simp [List.map_map, Function.comp_def, add_assoc, add_comm]
    intro a _
    rw [show (a : Int) + (i + 1) = i + ((a : Int) + 1) by ring]

theorem getPeers_specs (specs : List Spec) (temp : Template) (domain : String)
    (h : specs ≠ []) : getPeers specs temp domain = specs.map (specName domain) := by
  have hl : 0 < specs.length := List.length_pos.mpr h
  unfold getPeers
  simp only [if_pos hl]
  have key : ∀ (l : List Spec) (init : List String),
      l.foldl
        (fun result value =>
          if value.CommonName ≠ "" then result ++ [value.CommonName]
          else result ++ [value.Hostname ++ "." ++ domain]) init
        = init ++ l.map (specName domain) := by
    intro l
    induction l with
    | nil => simp
    | cons a t ih =>
      intro init
      simp only [List.foldl_cons, ih, List.map_cons]
      by_cases hc : a.CommonName = "" <;> simp [specName, hc]
  simpa using key specs []

theorem getPeers_template (temp : Template) (domain : String) :
    getPeers [] temp domain = templateNames temp.Start temp.Count domain := by
  unfold getPeers templateNames
  simp [getPeersLoop_eq domain temp.Count _ temp.Start [] rfl]

theorem getUsers_eq (count : Int) : getUsers count = userNames count := by
  unfold getUsers userNames
  by_cases h : count > 0
  · simp only [if_pos h]
    rw [getUsersLoop_eq count count.toNat 1 [] (by omega)]
    simp [add_comm]
  · simp only [if_neg h]
    have : count.toNat = 0 := by omega
    simp [this]

theorem parseConfigToNodes_blocks (cConfig : CryptoConfig) :
    (parseConfigToNodes cConfig).1 =
      (cConfig.OrdererOrgs.map (ordererOrgNodes cConfig)).flatten ++
        (cConfig.PeerOrgs.map (peerOrgNodes cConfig)).flatten := by
  unfold parseConfigToNodes
  simp only [foldl_append_singleton, List.append_assoc]
  rw [foldl_append_block (fun value =>
      value.Specs.map (ordererSpecNode cConfig value) ++
        ["Admin", "User1"].map (ordererUserNode cConfig value))]
  rw [foldl_append_block (fun value =>
      (getPeers value.Specs value.Template value.Domain).map (peerNode cConfig value) ++
        (["Admin"] ++ getUsers value.Users.Count).map (peerUserNode cConfig value))]
  simp only [List.nil_append]
  rfl

theorem resolve_eq (subject : Subject) (output : String) (os : List OrdererOrg)
    (ps : List PeerOrg) :
    resolve subject output os ps =
      (os.map (ordererOrgNodes (baseConfig subject output))).flatten ++
        (ps.map (peerOrgNodes (baseConfig subject output))).flatten := by
  unfold resolve
  rw [parseConfigToNodes_blocks]
  rfl

theorem resolve_orderer_single (subject : Subject) (output : String) (v : OrdererOrg) :
    resolve subject output [v] [] = ordererOrgNodes (baseConfig subject output) v := by
  simp [resolve_eq]

theorem resolve_peer_single (subject : Subject) (output : String) (v : PeerOrg) :
    resolve subject output [] [v] = peerOrgNodes (baseConfig subject output) v := by
  simp [resolve_eq]

theorem resolve_orderer_split (subject : Subject) (output : String)
    (pre post : List OrdererOrg) (v : OrdererOrg) (ps : List PeerOrg) :
    resolve subject output (pre ++ v :: post) ps =
      resolve subject output pre [] ++ resolve subject output [v] [] ++
        resolve subject output post ps := by
  simp [resolve_eq, List.append_assoc]

theorem resolve_peer_split (subject : Subject) (output : String)
    (os : List OrdererOrg) (pre post : List PeerOrg) (v : PeerOrg) :
    resolve subject output os (pre ++ v :: post) =
      resolve subject output os pre ++ resolve subject output [] [v] ++
        resolve subject output [] post := by
  simp [resolve_eq, List.append_assoc]

theorem getElem?_block_mid {α : Type} (a b c : List α) (x : α) (k : Nat)
    (hb : b.length = k) : (a ++ (b ++ x :: c))[a.length + k]? = some x := by
  subst hb
  rw [← List.append_assoc, List.getElem?_append_right (by simp)]
  simp

theorem user_ne_admin (x : String) : "User" ++ x ≠ "Admin" := by
  intro h
  have hd := congrArg String.data h
  simp [String.data_append] at hd

/-! ## Claims -/

/-- C1: the resolved sequence is the concatenation of the per-organization
blocks, ordering organizations first and then peer organizations, each in
declaration order; inside a block the member identities (OrderingNode,
PeerNode) come before the Admin/User identities; and resolving `O1 ++ O2`
with `P1 ++ P2` is `resolve(O1,[]) ++ resolve(O2,[]) ++ resolve([],P1) ++
resolve([],P2)`. -/
theorem parseConfigToNodes_concatenation (subject : Subject) (output : String)
    (O1 O2 : List OrdererOrg) (P1 P2 : List PeerOrg) :
    resolve subject output (O1 ++ O2) (P1 ++ P2) =
        resolve subject output O1 [] ++ resolve subject output O2 [] ++
          resolve subject output [] P1 ++ resolve subject output [] P2
      ∧ (∀ (os : List OrdererOrg) (ps : List PeerOrg),
          resolve subject output os ps =
            (os.map (fun v => resolve subject output [v] [])).flatten ++
              (ps.map (fun v => resolve subject output [] [v])).flatten)
      ∧ (∀ v : OrdererOrg, ∃ members defaults : List Node,
          resolve subject output [v] [] = members ++ defaults
            ∧ (∀ n ∈ members, n.Type_ = NodeType.Orderer)
            ∧ (∀ n ∈ defaults, n.Type_ = NodeType.Admin ∨ n.Type_ = NodeType.User))
      ∧ (∀ v : PeerOrg, ∃ members defaults : List Node,
          resolve subject output [] [v] = members ++ defaults
            ∧ (∀ n ∈ members, n.Type_ = NodeType.Peer)
            ∧ (∀ n ∈ defaults, n.Type_ = NodeType.Admin ∨ n.Type_ = NodeType.User)) := by
  refine ⟨?_, ?_, ?_, ?_⟩
  · simp [resolve_eq, List.append_assoc]
  · intro os ps
    simp only [resolve_orderer_single, resolve_peer_single]
    exact resolve_eq subject output os ps
  · intro v
    refine ⟨v.Specs.map (ordererSpecNode (baseConfig subject output) v),
      ["Admin", "User1"].map (ordererUserNode (baseConfig subject output) v), ?_, ?_, ?_⟩
    · rw [resolve_orderer_single]; rfl
    · intro n hn
      obtain ⟨o, _, rfl⟩ := List.mem_map.mp hn
      rfl
    · intro n hn
      simp only [List.map_cons, List.map_nil, List.mem_cons, List.mem_singleton,
        List.not_mem_nil, or_false] at hn
      rcases hn with rfl | rfl
      · left; rfl
      · right; simp [ordererUserNode]
  · intro v
    refine ⟨(getPeers v.Specs v.Template v.Domain).map (peerNode (baseConfig subject output) v),
      (["Admin"] ++ getUsers v.Users.Count).map (peerUserNode (baseConfig subject output) v),
      ?_, ?_, ?_⟩
    · rw [resolve_peer_single]; rfl
    · intro n hn
      obtain ⟨o, _, rfl⟩ := List.mem_map.mp hn
      rfl
    · intro n hn
      obtain ⟨item, hitem, rfl⟩ := List.mem_map.mp hn
      by_cases hA : item = "Admin"
      · left; simp [peerUserNode, hA]
      · right; simp [peerUserNode, hA]

/-- C2: an ordering organization with `n` explicit member specs contributes
exactly `n + 2` identities, its block standing between the identities of the
organizations declared before it and those of everything declared after it;
one ordering organization with one spec and no peer organization resolves to
three identities. -/
theorem ordererOrg_emits_specs_add_two (subject : Subject) (output : String)
    (pre post : List OrdererOrg) (v : OrdererOrg) (ps : List PeerOrg) :
    (resolve subject output [v] []).length = v.Specs.length + 2
      ∧ resolve subject output (pre ++ v :: post) ps =
          resolve subject output pre [] ++ resolve subject output [v] [] ++
            resolve subject output post ps
      ∧ (resolve subject output (pre ++ v :: post) ps).length =
          (resolve subject output pre []).length + (v.Specs.length + 2) +
            (resolve subject output post ps).length
      ∧ (resolve subject output
            [{ Name := "Orderer", Domain := "example.com", CaFile := "ca.pem",
               Specs := [{ Hostname := "orderer0", CommonName := "" }] }] []).map
            (fun n => (n.Name, n.Type_)) =
          [("orderer0.example.com", NodeType.Orderer), ("Admin@example.com", NodeType.Admin),
            ("User1@example.com", NodeType.User)] := by
  have hlen : (resolve subject output [v] []).length = v.Specs.length + 2 := by
    simp [resolve_orderer_single, ordererOrgNodes]
  refine ⟨hlen, resolve_orderer_split subject output pre post v ps, ?_, ?_⟩
  · rw [resolve_orderer_split, List.length_append, List.length_append, hlen]
  · rw [resolve_orderer_single]
    simp [ordererOrgNodes, ordererSpecNode, ordererUserNode]

/-- C3: the identity emitted for an explicit member spec of an ordering
organization has kind OrderingNode, and its name is the common name of the
spec when that is non-empty (then hostname and domain play no part), and
otherwise hostname, a dot and the domain. -/
theorem ordererSpec_identity (subject : Subject) (output : String)
    (pre post : List OrdererOrg) (ps : List PeerOrg) (name domain caFile : String)
    (s1 s2 : List Spec) (o : Spec) :
    ∃ n : Node,
      (resolve subject output
          (pre ++ { Name := name, Domain := domain, CaFile := caFile,
                    Specs := s1 ++ o :: s2 } :: post) ps)[
          (resolve subject output pre []).length + s1.length]? = some n
        ∧ n.Type_ = NodeType.Orderer
        ∧ n.Name = (if o.CommonName ≠ "" then o.CommonName else o.Hostname ++ "." ++ domain)
        ∧ (o.CommonName ≠ "" → n.Name = o.CommonName)
        ∧ (o.CommonName = "" → n.Name = o.Hostname ++ "." ++ domain) := by
  refine ⟨ordererSpecNode (baseConfig subject output)
    { Name := name, Domain := domain, CaFile := caFile, Specs := s1 ++ o :: s2 } o,
    ?_, rfl, rfl, ?_, ?_⟩
  · rw [resolve_orderer_split, resolve_orderer_single]
    simp only [ordererOrgNodes, List.map_append, List.map_cons, List.append_assoc,
      List.cons_append]
    exact getElem?_block_mid _ _ _ _ _ (by simp)
  · intro h
    simp [ordererSpecNode, h]
  · intro h
    simp [ordererSpecNode, h]

/-- C4: whatever the number of explicit specs, the block of an ordering
organization ends with the identity `Admin@<domain>` of kind Admin followed by
the identity `User1@<domain>` of kind User, and no identity before these two
has kind Admin or User. -/
theorem ordererOrg_default_identities (subject : Subject) (output : String)
    (pre post : List OrdererOrg) (v : OrdererOrg) (ps : List PeerOrg) :
    ∃ (members : List Node) (a u : Node),
      resolve subject output [v] [] = members ++ [a, u]
        ∧ resolve subject output (pre ++ v :: post) ps =
            resolve subject output pre [] ++ (members ++ [a, u]) ++
              resolve subject output post ps
        ∧ members.length = v.Specs.length
        ∧ a.Name = "Admin@" ++ v.Domain ∧ a.Type_ = NodeType.Admin
        ∧ u.Name = "User1@" ++ v.Domain ∧ u.Type_ = NodeType.User
        ∧ (∀ n ∈ members, n.Type_ ≠ NodeType.Admin ∧ n.Type_ ≠ NodeType.User)
        ∧ ((members ++ [a, u]).filter
            (fun n => decide (n.Type_ = NodeType.Admin ∨ n.Type_ = NodeType.User))) = [a, u] := by
  have hmem : ∀ n ∈ v.Specs.map (ordererSpecNode (baseConfig subject output) v),
      n.Type_ = NodeType.Orderer := by
    intro n hn
    obtain ⟨o, _, rfl⟩ := List.mem_map.mp hn
    rfl
  refine ⟨v.Specs.map (ordererSpecNode (baseConfig subject output) v),
    ordererUserNode (baseConfig subject output) v "Admin",
    ordererUserNode (baseConfig subject output) v "User1", ?_, ?_, ?_, ?_, ?_, ?_, ?_, ?_, ?_⟩
  · rw [resolve_orderer_single]; rfl
  · rw [resolve_orderer_split, resolve_orderer_single]; rfl
  · simp
  · simp only [ordererUserNode]
    rw [String.append_assoc]
    rfl
  · rfl
  · simp only [ordererUserNode]
    rw [String.append_assoc]
    rfl
  · simp [ordererUserNode]
  · intro n hn
    rw [hmem n hn]
    decide
  · rw [List.filter_append]
    have h1 : (v.Specs.map (ordererSpecNode (baseConfig subject output) v)).filter
        (fun n => decide (n.Type_ = NodeType.Admin ∨ n.Type_ = NodeType.User)) = [] := by
      rw [List.filter_eq_nil_iff]
      intro n hn
      rw [hmem n hn]
      decide
    rw [h1]
    simp [ordererUserNode]

/-- C5: with no explicit spec and template `start = s`, `count = c`, `getPeers`
returns the names `peer<i>.<domain>` for `i = s, s+1, ..., c-1` in ascending
order: `c - s` names when `c > s`, none when `c <= s`; for start 0, count 2
and domain `org1.com` these are `peer0.org1.com` and `peer1.org1.com`. -/
theorem getPeers_template_range (s c : Int) (domain : String) :
    getPeers [] { Start := s, Count := c } domain =
        (List.range (c - s).toNat).map
          (fun (k : Nat) => "peer" ++ toString (s + (k : Int)) ++ "." ++ domain)
      ∧ (s < c → ((getPeers [] { Start := s, Count := c } domain).length : Int) = c - s)
      ∧ (c ≤ s → getPeers [] { Start := s, Count := c } domain = [])
      ∧ getPeers [] { Start := 0, Count := 2 } "org1.com" =
          ["peer0.org1.com", "peer1.org1.com"] := by
  have h := getPeers_template { Start := s, Count := c } domain
  simp only [templateNames] at h
  refine ⟨h, ?_, ?_, ?_⟩
  · intro hlt
    rw [h]
    simp only [List.length_map, List.length_range]
    omega
  · intro hle
    rw [h]
    have : (c - s).toNat = 0 := by omega
    simp [this]
  · rw [getPeers_template]
    decide

/-- C6 (as stated, refuted): for the single explicit spec with hostname `node0`
and no common name in domain `org1.com`, `getPeers` returns `node0.org1.com`,
which does not start with `peer`. -/
theorem getPeers_hostname_not_peer_pattern :
    getPeers [{ Hostname := "node0", CommonName := "" }] { Start := 0, Count := 0 } "org1.com" =
        ["node0.org1.com"]
      ∧ ¬ ∃ mid : String, "node0.org1.com" = "peer" ++ mid ++ "." ++ "org1.com" := by
  refine ⟨by decide, ?_⟩
  rintro ⟨mid, h⟩
  have hd := congrArg String.data h
  simp [String.data_append] at hd

/-- C6 (amended): for a non-empty explicit spec list, the name `getPeers`
produces for a spec whose common name is empty is exactly the hostname, a dot
and the domain: it ends with the dot and the domain, and what stands before
is the hostname as given (no `peer` is put in front of it). -/
theorem getPeers_hostname_pattern (s1 s2 : List Spec) (hostname domain : String)
    (temp : Template) :
    (getPeers (s1 ++ { Hostname := hostname, CommonName := "" } :: s2) temp domain)[s1.length]? =
        some (hostname ++ "." ++ domain)
      ∧ hostname ++ "." ++ domain = hostname ++ ("." ++ domain)
      ∧ (∀ rest : String, hostname = "peer" ++ rest →
          hostname ++ "." ++ domain = "peer" ++ (rest ++ ("." ++ domain))) := by
  refine ⟨?_, String.append_assoc _ _ _, ?_⟩
  · rw [getPeers_specs _ _ _ (by simp)]
    simp only [List.map_append, List.map_cons]
    have := getElem?_block_mid ([] : List String) (s1.map (specName domain))
      (s2.map (specName domain)) (specName domain { Hostname := hostname, CommonName := "" })
      s1.length (by simp)
    simpa [specName] using this
  · rintro rest rfl
    simp [String.append_assoc]

/-- C7: the two naming modes of `getPeers` exclude each other and the spec
list alone selects between them: for a non-empty spec list the result is one
name per spec in spec order (the common name if non-empty, else hostname, dot,
domain) whatever the template; for an empty spec list it is the sequence of
the template, read from `Start`, `Count` and the domain only. In the resolved
block of a peer organization the identities of kind PeerNode carry exactly
these names. -/
theorem getPeers_modes (specs : List Spec) (temp temp2 : Template) (domain : String)
    (h : specs ≠ []) :
    getPeers specs temp domain =
        specs.map (fun value =>
          if value.CommonName ≠ "" then value.CommonName
          else value.Hostname ++ "." ++ domain)
      ∧ (getPeers specs temp domain).length = specs.length
      ∧ getPeers specs temp domain = getPeers specs temp2 domain
      ∧ getPeers [] temp domain =
          (List.range (temp.Count - temp.Start).toNat).map
            (fun (k : Nat) => "peer" ++ toString (temp.Start + (k : Int)) ++ "." ++ domain)
      ∧ (∀ (subject : Subject) (output : String) (v : PeerOrg),
          ((resolve subject output [] [v]).filter
              (fun n => decide (n.Type_ = NodeType.Peer))).map (fun n => n.Name) =
            getPeers v.Specs v.Template v.Domain) := by
  have h1 := getPeers_specs specs temp domain h
  refine ⟨h1, ?_, ?_, getPeers_template temp domain, ?_⟩
  · rw [h1]; simp
  · rw [h1, getPeers_specs specs temp2 domain h]
  · intro subject output v
    rw [resolve_peer_single]
    simp only [peerOrgNodes, List.filter_append, List.map_append]
    have hp : ∀ l : List String,
        ((l.map (peerNode (baseConfig subject output) v)).filter
          (fun n => decide (n.Type_ = NodeType.Peer))).map (fun n => n.Name) = l := by
      intro l
      induction l with
      | nil => rfl
      | cons a t ih => simpa [peerNode] using ih
    have hu : ∀ l : List String,
        (l.map (peerUserNode (baseConfig subject output) v)).filter
          (fun n => decide (n.Type_ = NodeType.Peer)) = [] := by
      intro l
      rw [List.filter_eq_nil_iff]
      intro n hn
      obtain ⟨item, _, rfl⟩ := List.mem_map.mp hn
      by_cases hA : item = "Admin" <;> simp [peerUserNode, hA]
    simp only [hp, hu]
    simp

/-- C7, at a concrete input: two explicit specs, one with a common name. -/
theorem getPeers_modes_witness :
    ([{ Hostname := "peer0", CommonName := "" }, { Hostname := "x", CommonName := "cn" }] :
        List Spec) ≠ []
      ∧ getPeers
          [{ Hostname := "peer0", CommonName := "" }, { Hostname := "x", CommonName := "cn" }]
          { Start := 0, Count := 5 } "org1.com" = ["peer0.org1.com", "cn"]
      ∧ getPeers
          [{ Hostname := "peer0", CommonName := "" }, { Hostname := "x", CommonName := "cn" }]
          { Start := 0, Count := 5 } "org1.com" =
        getPeers
          [{ Hostname := "peer0", CommonName := "" }, { Hostname := "x", CommonName := "cn" }]
          { Start := 7, Count := 9 } "org1.com" := by
  have h := getPeers_modes
    [{ Hostname := "peer0", CommonName := "" }, { Hostname := "x", CommonName := "cn" }]
    { Start := 0, Count := 5 } { Start := 7, Count := 9 } "org1.com" (by decide)
  refine ⟨by decide, ?_, h.2.2.1⟩
  rw [h.1]
  decide

theorem peerUserNode_admin (cConfig : CryptoConfig) (v : PeerOrg) :
    ((peerUserNode cConfig v "Admin").Name, (peerUserNode cConfig v "Admin").Type_) =
      ("Admin@" ++ v.Domain, NodeType.Admin) := by
  simp only [peerUserNode, String.append_assoc]
  rfl

/-- C8: after its peers, the block of a peer organization with user count `k`
holds `Admin@<domain>` of kind Admin and then, for `i = 1..k` in ascending
order, `User<i>@<domain>` of kind User: `k + 1` entries when `k > 0`, the
single Admin entry when `k <= 0`, and exactly one entry of kind Admin. -/
theorem peerOrg_admin_user_block (subject : Subject) (output : String) (v : PeerOrg) :
    ∃ peers block : List Node,
      resolve subject output [] [v] = peers ++ block
        ∧ (∀ n ∈ peers, n.Type_ = NodeType.Peer)
        ∧ block.map (fun n => (n.Name, n.Type_)) =
            ("Admin@" ++ v.Domain, NodeType.Admin) ::
              (List.range v.Users.Count.toNat).map
                (fun (i : Nat) =>
                  ("User" ++ toString ((i : Int) + 1) ++ "@" ++ v.Domain, NodeType.User))
        ∧ (0 < v.Users.Count → (block.length : Int) = v.Users.Count + 1)
        ∧ (v.Users.Count ≤ 0 → block.length = 1)
        ∧ (block.filter (fun n => decide (n.Type_ = NodeType.Admin))).length = 1 := by
  have hmap : ((["Admin"] ++ getUsers v.Users.Count).map
      (peerUserNode (baseConfig subject output) v)).map (fun n => (n.Name, n.Type_)) =
        ("Admin@" ++ v.Domain, NodeType.Admin) ::
          (List.range v.Users.Count.toNat).map
            (fun (i : Nat) =>
              ("User" ++ toString ((i : Int) + 1) ++ "@" ++ v.Domain, NodeType.User)) := by
    rw [getUsers_eq]
    simp only [userNames, List.singleton_append, List.map_cons, List.map_map,
      peerUserNode_admin]
    congr 1
  have hlen : ((["Admin"] ++ getUsers v.Users.Count).map
      (peerUserNode (baseConfig subject output) v)).length = v.Users.Count.toNat + 1 := by
    rw [getUsers_eq]
    simp [userNames]
  refine ⟨(getPeers v.Specs v.Template v.Domain).map (peerNode (baseConfig subject output) v),
    (["Admin"] ++ getUsers v.Users.Count).map (peerUserNode (baseConfig subject output) v),
    ?_, ?_, hmap, ?_, ?_, ?_⟩
  · rw [resolve_peer_single]; rfl
  · intro n hn
    obtain ⟨p, _, rfl⟩ := List.mem_map.mp hn
    rfl
  · intro hk
    rw [hlen]
    omega
  · intro hk
    rw [hlen]
    omega
  · rw [getUsers_eq]
    simp only [userNames, List.singleton_append, List.map_cons, List.map_map]
    rw [List.filter_cons_of_pos (by simp [peerUserNode])]
    rw [List.filter_eq_nil_iff.mpr]
    · rfl
    · intro n hn
      obtain ⟨i, _, rfl⟩ := List.mem_map.mp hn
      simp [peerUserNode, user_ne_admin]

theorem getOrdererOutput_eq (name domain : String) (nodeType : NodeType) (basePath : String) :
    getOrdererOutput name domain nodeType basePath =
      basePath ++ "/ordererOrganizations/" ++ domain ++ "/" ++
        (if nodeType = NodeType.Orderer then "orderers" else "users") ++ "/" ++ name := by
  simp only [getOrdererOutput]
  have h : basePath ++ "/" ++ "ordererOrganizations" ++ "/" =
      basePath ++ "/ordererOrganizations/" := by
    rw [String.append_assoc, String.append_assoc]
    rfl
  rw [h]

theorem getPeerOutput_eq (name domain : String) (nodeType : NodeType) (basePath : String) :
    getPeerOutput name domain nodeType basePath =
      basePath ++ "/peerOrganizations/" ++ domain ++ "/" ++
        (if nodeType = NodeType.Peer then "peers" else "users") ++ "/" ++ name := by
  simp only [getPeerOutput]
  have h : basePath ++ "/" ++ "peerOrganizations" ++ "/" =
      basePath ++ "/peerOrganizations/" := by
    rw [String.append_assoc, String.append_assoc]
    rfl
  rw [h]

theorem mem_resolve_of_orderer (subject : Subject) (output : String) (os : List OrdererOrg)
    (ps : List PeerOrg) (v : OrdererOrg) (hv : v ∈ os) (n : Node)
    (hn : n ∈ resolve subject output [v] []) : n ∈ resolve subject output os ps := by
  obtain ⟨pre, post, rfl⟩ := List.append_of_mem hv
  rw [resolve_orderer_split]
  simp [hn]

theorem mem_resolve_of_peer (subject : Subject) (output : String) (os : List OrdererOrg)
    (ps : List PeerOrg) (v : PeerOrg) (hv : v ∈ ps) (n : Node)
    (hn : n ∈ resolve subject output [] [v]) : n ∈ resolve subject output os ps := by
  obtain ⟨pre, post, rfl⟩ := List.append_of_mem hv
  rw [resolve_peer_split]
  simp [hn]

/-- C9: every identity emitted for an ordering organization has the output
path `<base>/ordererOrganizations/<domain>/<roleFolder>/<name>`, the role
folder being `orderers` for kind OrderingNode and `users` otherwise (so for
the Admin and User1 defaults), with the output directory of the description
as base and the identity's own name last. -/
theorem ordererOrg_output_path (subject : Subject) (output : String)
    (os : List OrdererOrg) (ps : List PeerOrg) (v : OrdererOrg) (n : Node)
    (hv : v ∈ os) (hn : n ∈ resolve subject output [v] []) :
    n ∈ resolve subject output os ps
      ∧ n.Output =
          output ++ "/ordererOrganizations/" ++ v.Domain ++ "/" ++
            (if n.Type_ = NodeType.Orderer then "orderers" else "users") ++ "/" ++ n.Name
      ∧ (n.Type_ = NodeType.Admin ∨ n.Type_ = NodeType.User →
          n.Output = output ++ "/ordererOrganizations/" ++ v.Domain ++ "/users/" ++ n.Name) := by
  have hout : n.Output =
      output ++ "/ordererOrganizations/" ++ v.Domain ++ "/" ++
        (if n.Type_ = NodeType.Orderer then "orderers" else "users") ++ "/" ++ n.Name := by
    rw [resolve_orderer_single] at hn
    simp only [ordererOrgNodes, List.mem_append, List.mem_map] at hn
    rcases hn with ⟨o, _, rfl⟩ | ⟨item, _, rfl⟩
    · exact getOrdererOutput_eq _ _ _ _
    · exact getOrdererOutput_eq _ _ _ _
  refine ⟨mem_resolve_of_orderer subject output os ps v hv n hn, hout, ?_⟩
  intro hk
  have hne : n.Type_ ≠ NodeType.Orderer := by
    rcases hk with h | h <;> rw [h] <;> decide
  rw [hout, if_neg hne]
  have h : output ++ "/ordererOrganizations/" ++ v.Domain ++ "/" ++ "users" ++ "/" =
      output ++ "/ordererOrganizations/" ++ v.Domain ++ "/users/" := by
    rw [String.append_assoc _ "/" "users", String.append_assoc _ ("/" ++ "users") "/"]
    rfl
  rw [h]

/-- C10: every identity emitted for a peer organization has the output path
`<base>/peerOrganizations/<domain>/<roleFolder>/<name>`, the role folder being
`peers` for kind PeerNode and `users` otherwise (so for Admin and every
numbered user), with the output directory of the description as base and the
identity's own name last. -/
theorem peerOrg_output_path (subject : Subject) (output : String)
    (os : List OrdererOrg) (ps : List PeerOrg) (v : PeerOrg) (n : Node)
    (hv : v ∈ ps) (hn : n ∈ resolve subject output [] [v]) :
    n ∈ resolve subject output os ps
      ∧ n.Output =
          output ++ "/peerOrganizations/" ++ v.Domain ++ "/" ++
            (if n.Type_ = NodeType.Peer then "peers" else "users") ++ "/" ++ n.Name
      ∧ (n.Type_ = NodeType.Admin ∨ n.Type_ = NodeType.User →
          n.Output = output ++ "/peerOrganizations/" ++ v.Domain ++ "/users/" ++ n.Name) := by
  have hout : n.Output =
      output ++ "/peerOrganizations/" ++ v.Domain ++ "/" ++
        (if n.Type_ = NodeType.Peer then "peers" else "users") ++ "/" ++ n.Name := by
    rw [resolve_peer_single] at hn
    simp only [peerOrgNodes, List.mem_append, List.mem_map] at hn
    rcases hn with ⟨o, _, rfl⟩ | ⟨item, _, rfl⟩
    · exact getPeerOutput_eq _ _ _ _
    · exact getPeerOutput_eq _ _ _ _
  refine ⟨mem_resolve_of_peer subject output os ps v hv n hn, hout, ?_⟩
  intro hk
  have hne : n.Type_ ≠ NodeType.Peer := by
    rcases hk with h | h <;> rw [h] <;> decide
  rw [hout, if_neg hne]
  have h : output ++ "/peerOrganizations/" ++ v.Domain ++ "/" ++ "users" ++ "/" =
      output ++ "/peerOrganizations/" ++ v.Domain ++ "/users/" := by
    rw [String.append_assoc _ "/" "users", String.append_assoc _ ("/" ++ "users") "/"]
    rfl
  rw [h]

theorem exampleOrdererNode_mem :
    exampleOrdererNode ∈ resolve exampleSubject "out" [exampleOrdererOrg] [] := by
  decide

theorem examplePeerUserNode_mem :
    examplePeerUserNode ∈ resolve exampleSubject "out" [] [examplePeerOrg] := by
  rw [resolve_peer_single]
  simp only [peerOrgNodes, getUsers_eq, userNames, examplePeerOrg, getPeers_template,
    templateNames]
  decide

/-- C9, at the spec's example: `orderer0` of `example.com` under base `out`. -/
theorem ordererOrg_output_path_witness :
    exampleOrdererOrg ∈ [exampleOrdererOrg]
      ∧ exampleOrdererNode ∈ resolve exampleSubject "out" [exampleOrdererOrg] []
      ∧ exampleOrdererNode.Output =
          "out" ++ "/ordererOrganizations/" ++ "example.com" ++ "/" ++ "orderers" ++ "/" ++
            "orderer0.example.com" :=
  ⟨by decide, exampleOrdererNode_mem,
    (ordererOrg_output_path exampleSubject "out" [exampleOrdererOrg] [] exampleOrdererOrg
      exampleOrdererNode (by decide) exampleOrdererNode_mem).2.1⟩

/-- C10, at the spec's example: `User1` of `org1.com` under base `out`. -/
theorem peerOrg_output_path_witness :
    examplePeerOrg ∈ [examplePeerOrg]
      ∧ examplePeerUserNode ∈ resolve exampleSubject "out" [] [examplePeerOrg]
      ∧ examplePeerUserNode.Output =
          "out" ++ "/peerOrganizations/" ++ "org1.com" ++ "/users/" ++ "User1@org1.com" :=
  ⟨by decide, examplePeerUserNode_mem,
    (peerOrg_output_path exampleSubject "out" [] [examplePeerOrg] examplePeerOrg
      examplePeerUserNode (by decide) examplePeerUserNode_mem).2.2 (Or.inr rfl)⟩

/-! ## The projector as a map -/

theorem ParseSubject_some (s : PkixName) :
    ParseSubject (some s) =
      some
        { Country := s.Country.headD ""
          Province := s.Province.headD ""
          Locality := s.Locality.headD ""
          Organization := s.Organization.headD ""
          OrganizationalUnit := s.OrganizationalUnit.headD "" } := by
  obtain ⟨c, o, ou, l, p, cn⟩ := s
  cases c <;> cases o <;> cases ou <;> cases l <;> cases p <;> simp [ParseSubject]

theorem nodeConfigOf_present (typeString : NodeType → String) (value : Node)
    (h : value.Subject ≠ none) :
    nodeConfigOf typeString value = some (requestOf typeString value) := by
  obtain ⟨s, hs⟩ := Option.ne_none_iff_exists'.mp h
  simp [nodeConfigOf, requestOf, hs, ParseSubject_some]

theorem nodeConfigOf_absent (typeString : NodeType → String) (value : Node)
    (h : value.Subject = none) : nodeConfigOf typeString value = none := by
  simp [nodeConfigOf, h, ParseSubject]

theorem projector_loop (typeString : NodeType → String) (nodes : List Node) :
    ∀ init : SpeConfig,
      nodes.foldlM
          (fun (speConfig : SpeConfig) value =>
            match nodeConfigOf typeString value with
            | none => none
            | some nodeConfig =>
              some { speConfig with Nodes := speConfig.Nodes ++ [nodeConfig] })
          init =
        if nodes.all (fun n => n.Subject.isSome) then
          some { Nodes := init.Nodes ++ nodes.map (requestOf typeString) }
        else none := by
  induction nodes with
  | nil => intro init; simp
  | cons a t ih =>
    intro init
    cases hs : a.Subject with
    | none =>
      simp [List.foldlM_cons, nodeConfigOf_absent typeString a hs, hs]
    | some s =>
      have hp : a.Subject ≠ none := by simp [hs]
      simp [List.foldlM_cons, nodeConfigOf_present typeString a hp, hs, ih]

theorem ParseNodesToSpeConfig_eq (typeString : NodeType → String) (nodes : List Node) :
    ParseNodesToSpeConfig typeString nodes =
      if nodes.all (fun n => n.Subject.isSome) then
        some (some { Nodes := nodes.map (requestOf typeString) }, none)
      else none := by
  unfold ParseNodesToSpeConfig
  simp only [projector_loop]
  split_ifs <;> simp

theorem ParseNodesToSpeConfig_present (typeString : NodeType → String) (nodes : List Node)
    (h : ∀ n ∈ nodes, n.Subject ≠ none) :
    ParseNodesToSpeConfig typeString nodes =
      some (some { Nodes := nodes.map (requestOf typeString) }, none) := by
  rw [ParseNodesToSpeConfig_eq, if_pos]
  rw [List.all_eq_true]
  intro n hn
  exact Option.isSome_iff_ne_none.mpr (h n hn)

theorem ParseNodesToSpeConfig_returns (typeString : NodeType → String) (nodes : List Node)
    (batch : SpeConfig) (err : Option String)
    (h : ParseNodesToSpeConfig typeString nodes = some (some batch, err)) :
    batch.Nodes = nodes.map (requestOf typeString) ∧ err = none
      ∧ ∀ n ∈ nodes, n.Subject ≠ none := by
  rw [ParseNodesToSpeConfig_eq] at h
  split_ifs at h with hall
  · simp only [Option.some.injEq, Prod.mk.injEq] at h
    refine ⟨by rw [← h.1], h.2.symm, ?_⟩
    intro n hn
    rw [List.all_eq_true] at hall
    exact Option.isSome_iff_ne_none.mp (hall n hn)

theorem subject_of_mem_parse (cConfig : CryptoConfig) (n : Node)
    (h : n ∈ (parseConfigToNodes cConfig).1) :
    n.Subject = getSubject cConfig.Subject n.Name := by
  rw [parseConfigToNodes_blocks] at h
  simp only [List.mem_append, List.mem_flatten, List.mem_map] at h
  rcases h with ⟨l, ⟨v, _, rfl⟩, hn⟩ | ⟨l, ⟨v, _, rfl⟩, hn⟩
  · simp only [ordererOrgNodes, List.mem_append, List.mem_map] at hn
    rcases hn with ⟨o, _, rfl⟩ | ⟨item, _, rfl⟩ <;> rfl
  · simp only [peerOrgNodes, List.mem_append, List.mem_map] at hn
    rcases hn with ⟨o, _, rfl⟩ | ⟨item, _, rfl⟩ <;> rfl

theorem exampleOrdererNode_mem_parse :
    exampleOrdererNode ∈ (parseConfigToNodes exampleConfig).1 := by
  have h := mem_resolve_of_orderer exampleSubject "out" [exampleOrdererOrg] [examplePeerOrg]
    exampleOrdererOrg (by decide) exampleOrdererNode exampleOrdererNode_mem
  exact h

/-- C11: every identity of the resolved sequence, of either organization kind,
has a subject whose Country, Province and Locality are each the one-element
list of the global subject's country, whose Organization and
OrganizationalUnit are empty whatever the global subject holds for them, and
whose CommonName is the identity's name. -/
theorem parseConfigToNodes_subject (cConfig : CryptoConfig) (n : Node)
    (h : n ∈ (parseConfigToNodes cConfig).1) :
    n.Subject =
      some
        { Country := [cConfig.Subject.Country]
          Province := [cConfig.Subject.Country]
          Locality := [cConfig.Subject.Country]
          Organization := []
          OrganizationalUnit := []
          CommonName := n.Name } := by
  rw [subject_of_mem_parse cConfig n h]
  rfl

/-- C11, at the spec's example: the identity of `orderer0` under the global
country `CN`. -/
theorem parseConfigToNodes_subject_witness :
    exampleOrdererNode ∈ (parseConfigToNodes exampleConfig).1
      ∧ exampleOrdererNode.Subject =
          some
            { Country := ["CN"], Province := ["CN"], Locality := ["CN"], Organization := [],
              OrganizationalUnit := [], CommonName := "orderer0.example.com" } :=
  ⟨exampleOrdererNode_mem_parse,
    parseConfigToNodes_subject exampleConfig exampleOrdererNode exampleOrdererNode_mem_parse⟩

theorem ordererOrgNodes_names (cConfig : CryptoConfig) (v : OrdererOrg) :
    (ordererOrgNodes cConfig v).map (fun n => n.Name) = ordererOrgNames v := by
  simp only [ordererOrgNodes, ordererOrgNames, List.map_append, List.map_map, List.map_cons,
    List.map_nil]
  congr 1

theorem peerOrgNodes_names (cConfig : CryptoConfig) (v : PeerOrg) :
    (peerOrgNodes cConfig v).map (fun n => n.Name) = peerOrgNames v := by
  have hp : getPeers v.Specs v.Template v.Domain =
      (if v.Specs ≠ [] then v.Specs.map (specName v.Domain)
        else templateNames v.Template.Start v.Template.Count v.Domain) := by
    by_cases hs : v.Specs = []
    · rw [hs, getPeers_template]; simp
    · rw [getPeers_specs _ _ _ hs, if_pos hs]
  simp only [peerOrgNodes, peerOrgNames, List.map_append, List.map_map, List.map_cons,
    List.map_nil, List.singleton_append, getUsers_eq, ← hp]
  congr 1
  simp [Function.comp_def, peerNode]

theorem parseConfigToNodes_names (cConfig : CryptoConfig) :
    (parseConfigToNodes cConfig).1.map (fun n => n.Name) = derivedNames cConfig := by
  rw [parseConfigToNodes_blocks, derivedNames]
  simp only [List.map_append, List.map_flatten, List.map_map]
  congr 2
  · apply List.map_congr_left
    intro v _
    exact ordererOrgNodes_names cConfig v
  · apply List.map_congr_left
    intro v _
    exact peerOrgNodes_names cConfig v

/-- C12 (as stated, refuted): an ordering organization that lists the host
`orderer0` twice resolves to two identities of the same name. -/
theorem parseConfigToNodes_duplicate_names :
    (parseConfigToNodes
          { OrdererOrgs := [duplicateSpecOrg], PeerOrgs := [], Subject := exampleSubject,
            Output := "out" }).1.map (fun n => n.Name) =
        ["orderer0.example.com", "orderer0.example.com", "Admin@example.com",
          "User1@example.com"]
      ∧ ¬ ((parseConfigToNodes
          { OrdererOrgs := [duplicateSpecOrg], PeerOrgs := [], Subject := exampleSubject,
            Output := "out" }).1.map (fun n => n.Name)).Nodup := by
  constructor <;> decide

/-- C12 (amended): for every description, colliding or not, the names of the
identities returned are exactly the names the description derives, in order
and with their multiplicity, and the error is nil: `parseConfigToNodes`
neither rejects nor removes a collision, so a name derived more than once is
returned more than once, and the returned names are pairwise distinct if and
only if the derived names of the description are. -/
theorem parseConfigToNodes_names_nodup (cConfig : CryptoConfig) :
    (parseConfigToNodes cConfig).1.map (fun n => n.Name) = derivedNames cConfig
      ∧ (parseConfigToNodes cConfig).2 = none
      ∧ (parseConfigToNodes cConfig).1.length = (derivedNames cConfig).length
      ∧ (∀ x : String,
          ((parseConfigToNodes cConfig).1.map (fun n => n.Name)).count x =
            (derivedNames cConfig).count x)
      ∧ (∀ x : String, 1 < (derivedNames cConfig).count x →
          1 < ((parseConfigToNodes cConfig).1.filter (fun n => decide (n.Name = x))).length)
      ∧ (((parseConfigToNodes cConfig).1.map (fun n => n.Name)).Nodup ↔
          (derivedNames cConfig).Nodup)
      ∧ ((derivedNames cConfig).Nodup → (parseConfigToNodes cConfig).1.Nodup) := by
  have hn := parseConfigToNodes_names cConfig
  refine ⟨hn, rfl, ?_, ?_, ?_, ?_, ?_⟩
  · rw [← hn, List.length_map]
  · intro x
    rw [hn]
  · intro x hx
    rw [← hn, List.count_eq_countP, List.countP_map, List.countP_eq_length_filter] at hx
    have hf : (fun n : Node => decide (n.Name = x)) =
        ((fun y : String => y == x) ∘ fun n : Node => n.Name) := by
      funext n
      by_cases hx2 : n.Name = x <;> simp [Function.comp_def, hx2]
    rw [hf]
    exact hx
  · rw [hn]
  · intro h
    exact List.Nodup.of_map _ (hn ▸ h)

theorem derivedNames_exampleConfig :
    derivedNames exampleConfig =
      ["orderer0.example.com", "Admin@example.com", "User1@example.com", "peer0.org1.com",
        "peer1.org1.com", "Admin@org1.com", "User1@org1.com"] := by
  decide

/-- C12 (amended), at the spec's two examples together, seven distinct names,
and at the organization that lists `orderer0` twice, where the collision is
returned as derived. -/
theorem parseConfigToNodes_names_nodup_witness :
    (derivedNames exampleConfig).Nodup
      ∧ (parseConfigToNodes exampleConfig).1.map (fun n => n.Name) =
          ["orderer0.example.com", "Admin@example.com", "User1@example.com", "peer0.org1.com",
            "peer1.org1.com", "Admin@org1.com", "User1@org1.com"]
      ∧ (parseConfigToNodes exampleConfig).1.Nodup
      ∧ 1 < ((parseConfigToNodes
            { OrdererOrgs := [duplicateSpecOrg], PeerOrgs := [], Subject := exampleSubject,
              Output := "out" }).1.filter
            (fun n => decide (n.Name = "orderer0.example.com"))).length := by
  have hd : (derivedNames exampleConfig).Nodup := by
    rw [derivedNames_exampleConfig]
    decide
  have hex := parseConfigToNodes_names_nodup exampleConfig
  have hdup := parseConfigToNodes_names_nodup
    { OrdererOrgs := [duplicateSpecOrg], PeerOrgs := [], Subject := exampleSubject,
      Output := "out" }
  exact ⟨hd, hex.1.trans derivedNames_exampleConfig, hex.2.2.2.2.2.2 hd,
    hdup.2.2.2.2.1 "orderer0.example.com" (by decide)⟩

theorem forall₂_map_of_forall {α β : Type} (P : α → β → Prop) (f : α → β) (l : List α)
    (h : ∀ a ∈ l, P a (f a)) : List.Forall₂ P l (l.map f) := by
  induction l with
  | nil => exact List.Forall₂.nil
  | cons a t ih =>
    refine List.Forall₂.cons (h a (List.mem_cons_self a t)) (ih ?_)
    intro b hb
    exact h b (List.mem_cons_of_mem a hb)

/-- C13 (as stated, refuted): on the one-element sequence whose identity has a
nil subject pointer, `ParseNodesToSpeConfig` dereferences nil in
`ParseSubject` and returns no batch. -/
theorem ParseNodesToSpeConfig_nil_subject :
    nilSubjectNode.Subject = none
      ∧ ParseSubject nilSubjectNode.Subject = none
      ∧ ParseNodesToSpeConfig exampleTypeString [nilSubjectNode] = none := by
  refine ⟨rfl, rfl, ?_⟩
  decide

/-- C13 (amended): for every identity sequence whose subjects are present,
`ParseNodesToSpeConfig` returns a batch with exactly one request per identity
in the same order, and the request of an identity is built from that identity
alone: its Name, Output and CaFile are the identity's name, output path and CA
file, and both enroll IDs are the identity's name. -/
theorem ParseNodesToSpeConfig_one_per_identity (typeString : NodeType → String)
    (nodes : List Node) (h : ∀ n ∈ nodes, n.Subject ≠ none) :
    ∃ batch : SpeConfig,
      ParseNodesToSpeConfig typeString nodes = some (some batch, none)
        ∧ batch.Nodes.length = nodes.length
        ∧ List.Forall₂
            (fun n r =>
              nodeConfigOf typeString n = some r
                ∧ r.Name = n.Name ∧ r.Output = n.Output ∧ r.CaFile = n.CaFile
                ∧ r.Register.EnrollID = n.Name ∧ r.Enroll.EnrollID = n.Name)
            nodes batch.Nodes := by
  refine ⟨{ Nodes := nodes.map (requestOf typeString) },
    ParseNodesToSpeConfig_present typeString nodes h, by simp, ?_⟩
  apply forall₂_map_of_forall
  intro n hn
  exact ⟨nodeConfigOf_present typeString n (h n hn), rfl, rfl, rfl, rfl, rfl⟩

/-- C13 (amended), at two identities of the spec's examples. -/
theorem ParseNodesToSpeConfig_one_per_identity_witness :
    (∀ n ∈ [exampleOrdererNode, examplePeerUserNode], n.Subject ≠ none)
      ∧ ∃ batch : SpeConfig,
          ParseNodesToSpeConfig exampleTypeString [exampleOrdererNode, examplePeerUserNode] =
              some (some batch, none)
            ∧ batch.Nodes.length = 2
            ∧ batch.Nodes.map (fun r => r.Name) =
                ["orderer0.example.com", "User1@org1.com"] := by
  have hs : ∀ n ∈ [exampleOrdererNode, examplePeerUserNode], n.Subject ≠ none := by decide
  obtain ⟨batch, hb, hlen, _⟩ :=
    ParseNodesToSpeConfig_one_per_identity exampleTypeString
      [exampleOrdererNode, examplePeerUserNode] hs
  refine ⟨hs, batch, hb, hlen, ?_⟩
  rw [ParseNodesToSpeConfig_present exampleTypeString _ hs] at hb
  simp only [Option.some.injEq, Prod.mk.injEq, and_true] at hb
  rw [← hb]
  decide

/-- C14: `ParseSubject` flattens each of Country, Province, Locality,
Organization and OrganizationalUnit on its own: the flattened field is the
first element of the list when there is one and the empty string when the list
is empty or nil, so what follows the first element plays no part; Country
`["A","B"]` gives `"A"` and Country `[]` gives `""`. -/
theorem ParseSubject_first_element (s : PkixName) :
    ParseSubject (some s) =
        some
          { Country := s.Country.headD ""
            Province := s.Province.headD ""
            Locality := s.Locality.headD ""
            Organization := s.Organization.headD ""
            OrganizationalUnit := s.OrganizationalUnit.headD "" }
      ∧ (∀ (a : String) (t1 t2 : List String),
          ParseSubject (some { s with Country := a :: t1 }) =
            ParseSubject (some { s with Country := a :: t2 }))
      ∧ (∀ (a : String) (t : List String),
          (ParseSubject (some { s with Country := a :: t })).map (fun r => r.Country) = some a
            ∧ (ParseSubject (some { s with Province := a :: t })).map (fun r => r.Province) =
                some a
            ∧ (ParseSubject (some { s with Locality := a :: t })).map (fun r => r.Locality) =
                some a
            ∧ (ParseSubject (some { s with Organization := a :: t })).map
                (fun r => r.Organization) = some a
            ∧ (ParseSubject (some { s with OrganizationalUnit := a :: t })).map
                (fun r => r.OrganizationalUnit) = some a)
      ∧ (ParseSubject (some { s with Country := ["A", "B"] })).map (fun r => r.Country) =
          some "A"
      ∧ (ParseSubject (some { s with Country := [] })).map (fun r => r.Country) = some "" := by
  refine ⟨ParseSubject_some s, ?_, ?_, ?_, ?_⟩
  · intro a t1 t2
    simp [ParseSubject_some]
  · intro a t
    simp [ParseSubject_some]
  · simp [ParseSubject_some]
  · simp [ParseSubject_some]

/-- C15: whatever the kind or the name of the identity, its request has
register secret `adminpwd`, enroll secret `adminpwd`, `MaxEnrollments = -1`,
affiliation `.` and `Registered = false`: this holds of every request of every
batch `ParseNodesToSpeConfig` returns, and an identity with a subject does get
such a request. -/
theorem ParseNodesToSpeConfig_fixed_fields (typeString : NodeType → String) :
    (∀ (nodes : List Node) (batch : SpeConfig) (err : Option String),
        ParseNodesToSpeConfig typeString nodes = some (some batch, err) →
          batch.Nodes.length = nodes.length
            ∧ ∀ r ∈ batch.Nodes,
                r.Register.Secret = "adminpwd" ∧ r.Enroll.Secret = "adminpwd"
                  ∧ r.Register.MaxEnrollments = -1 ∧ r.Register.Affiliation = "."
                  ∧ r.Register.Registered = false)
      ∧ (∀ (n : Node) (s : PkixName), n.Subject = some s →
          ∃ r : NodeConfig,
            ParseNodesToSpeConfig typeString [n] = some (some { Nodes := [r] }, none)
              ∧ r.Register.Secret = "adminpwd" ∧ r.Enroll.Secret = "adminpwd"
              ∧ r.Register.MaxEnrollments = -1 ∧ r.Register.Affiliation = "."
              ∧ r.Register.Registered = false) := by
  constructor
  · intro nodes batch err h
    obtain ⟨hb, _, _⟩ := ParseNodesToSpeConfig_returns typeString nodes batch err h
    rw [hb]
    refine ⟨by simp, ?_⟩
    intro r hr
    obtain ⟨n, _, rfl⟩ := List.mem_map.mp hr
    exact ⟨rfl, rfl, rfl, rfl, rfl⟩
  · intro n s hs
    refine ⟨requestOf typeString n, ?_, rfl, rfl, rfl, rfl, rfl⟩
    have hp : ∀ m ∈ [n], m.Subject ≠ none := by
      intro m hm
      rw [List.mem_singleton.mp hm, hs]
      simp
    exact ParseNodesToSpeConfig_present typeString [n] hp

/-- C16: the request of an identity has exactly two registration attributes,
in this order: `hf.Registrar.Roles` with the string of the identity's kind as
value, and `hf.Revoker` with value `false`; and `Register.Type` is the value
of the `hf.Registrar.Roles` attribute. This holds of every batch
`ParseNodesToSpeConfig` returns, request by request, and an identity with a
subject does get such a request. -/
theorem ParseNodesToSpeConfig_attributes (typeString : NodeType → String) :
    (∀ (nodes : List Node) (batch : SpeConfig) (err : Option String),
        ParseNodesToSpeConfig typeString nodes = some (some batch, err) →
          List.Forall₂
            (fun n r =>
              r.Register.Attrs =
                  [{ Name := "hf.Registrar.Roles", Value := typeString n.Type_ },
                   { Name := "hf.Revoker", Value := "false" }]
                ∧ r.Register.Attrs.length = 2
                ∧ r.Register.Type_ = typeString n.Type_
                ∧ r.Register.Attrs.head?.map (fun a => a.Value) = some r.Register.Type_)
            nodes batch.Nodes)
      ∧ (∀ (n : Node) (s : PkixName), n.Subject = some s →
          ∃ r : NodeConfig,
            ParseNodesToSpeConfig typeString [n] = some (some { Nodes := [r] }, none)
              ∧ r.Register.Attrs =
                  [{ Name := "hf.Registrar.Roles", Value := typeString n.Type_ },
                   { Name := "hf.Revoker", Value := "false" }]
              ∧ r.Register.Type_ = typeString n.Type_) := by
  constructor
  · intro nodes batch err h
    obtain ⟨hb, _, _⟩ := ParseNodesToSpeConfig_returns typeString nodes batch err h
    rw [hb]
    apply forall₂_map_of_forall
    intro n _
    exact ⟨rfl, rfl, rfl, rfl⟩
  · intro n s hs
    refine ⟨requestOf typeString n, ?_, rfl, rfl⟩
    have hp : ∀ m ∈ [n], m.Subject ≠ none := by
      intro m hm
      rw [List.mem_singleton.mp hm, hs]
      simp
    exact ParseNodesToSpeConfig_present typeString [n] hp

/-- C17: the resolver and the projector cannot fail: `parseConfigToNodes`
returns a nil error on every description, and on every identity sequence
whose subjects are present `ParseNodesToSpeConfig` returns a nil error and a
non-nil batch. -/
theorem resolver_projector_cannot_fail (cConfig : CryptoConfig)
    (typeString : NodeType → String) (nodes : List Node)
    (h : ∀ n ∈ nodes, n.Subject ≠ none) :
    (parseConfigToNodes cConfig).2 = none
      ∧ ∃ batch : SpeConfig,
          ParseNodesToSpeConfig typeString nodes = some (some batch, none) :=
  ⟨rfl, { Nodes := nodes.map (requestOf typeString) },
    ParseNodesToSpeConfig_present typeString nodes h⟩

/-- C17, at a description with empty domain and hostnames, a duplicated spec,
a template that counts backwards and a negative user count. -/
theorem resolver_projector_cannot_fail_witness :
    (∀ n ∈ [exampleOrdererNode, examplePeerUserNode], n.Subject ≠ none)
      ∧ (parseConfigToNodes malformedConfig).2 = none
      ∧ ∃ batch : SpeConfig,
          ParseNodesToSpeConfig exampleTypeString [exampleOrdererNode, examplePeerUserNode] =
            some (some batch, none) :=
  ⟨by decide,
    resolver_projector_cannot_fail malformedConfig exampleTypeString
      [exampleOrdererNode, examplePeerUserNode] (by decide)⟩

theorem length_flatten_map_cast {α β : Type} (g : α → List β) (k : α → Int)
    (h : ∀ a, ((g a).length : Int) = k a) (l : List α) :
    (((l.map g).flatten.length : Nat) : Int) = (l.map k).sum := by
  induction l with
  | nil => simp
  | cons a t ih =>
    simp only [List.map_cons, List.flatten_cons, List.length_append, List.sum_cons,
      Nat.cast_add, ih, h]

theorem getPeers_length (specs : List Spec) (temp : Template) (domain : String) :
    ((getPeers specs temp domain).length : Int) =
      if specs ≠ [] then (specs.length : Int) else max (temp.Count - temp.Start) 0 := by
  by_cases hs : specs = []
  · subst hs
    rw [getPeers_template, if_neg (by simp)]
    simp only [templateNames, List.length_map, List.length_range]
    omega
  · rw [getPeers_specs _ _ _ hs, if_pos hs]
    simp

theorem getUsers_length (count : Int) : ((getUsers count).length : Int) = max count 0 := by
  rw [getUsers_eq]
  simp only [userNames, List.length_map, List.length_range]
  omega

/-- C18: the number of identities `parseConfigToNodes` returns is the sum over
the ordering organizations of (number of specs + 2) plus the sum over the peer
organizations of (number of names of `getPeers` + 1 + max(userCount, 0)), the
number of names of `getPeers` being the number of specs when there are specs
and max(count - start, 0) otherwise. -/
theorem parseConfigToNodes_length (cConfig : CryptoConfig) :
    (((parseConfigToNodes cConfig).1.length : Nat) : Int) =
        (cConfig.OrdererOrgs.map (fun v => (v.Specs.length : Int) + 2)).sum +
          (cConfig.PeerOrgs.map
            (fun v =>
              ((getPeers v.Specs v.Template v.Domain).length : Int) + 1 +
                max v.Users.Count 0)).sum
      ∧ (∀ (specs : List Spec) (temp : Template) (domain : String),
          ((getPeers specs temp domain).length : Int) =
            if specs ≠ [] then (specs.length : Int) else max (temp.Count - temp.Start) 0) := by
  refine ⟨?_, getPeers_length⟩
  rw [parseConfigToNodes_blocks, List.length_append, Nat.cast_add]
  congr 1
  · apply length_flatten_map_cast
    intro v
    simp [ordererOrgNodes]
  · apply length_flatten_map_cast
    intro v
    have hu := getUsers_length v.Users.Count
    simp only [peerOrgNodes, List.length_append, List.length_map, List.length_cons,
      List.length_nil, Nat.cast_add, hu]
    push_cast
    ring

theorem subject_present_of_mem_parse (cConfig : CryptoConfig) :
    ∀ n ∈ (parseConfigToNodes cConfig).1, n.Subject ≠ none := by
  intro n hn
  rw [subject_of_mem_parse cConfig n hn]
  simp [getSubject]

theorem mem_parse_iff (cConfig : CryptoConfig) (n : Node) :
    n ∈ (parseConfigToNodes cConfig).1 ↔
      (∃ v ∈ cConfig.OrdererOrgs, n ∈ resolve cConfig.Subject cConfig.Output [v] [])
        ∨ (∃ v ∈ cConfig.PeerOrgs, n ∈ resolve cConfig.Subject cConfig.Output [] [v]) := by
  rw [parseConfigToNodes_blocks]
  simp only [resolve_orderer_single, resolve_peer_single, List.mem_append, List.mem_flatten,
    List.mem_map]
  constructor
  · rintro (⟨l, ⟨v, hv, rfl⟩, hn⟩ | ⟨l, ⟨v, hv, rfl⟩, hn⟩)
    · exact Or.inl ⟨v, hv, hn⟩
    · exact Or.inr ⟨v, hv, hn⟩
  · rintro (⟨v, hv, hn⟩ | ⟨v, hv, hn⟩)
    · exact Or.inl ⟨_, ⟨v, hv, rfl⟩, hn⟩
    · exact Or.inr ⟨_, ⟨v, hv, rfl⟩, hn⟩

/-- C19: every identity `parseConfigToNodes` returns has a present subject and
lies in the block of an organization of the description, whose CA file and
name are its CaFile and OrgName; hence `ParseNodesToSpeConfig` on the output
of `parseConfigToNodes` never dereferences a nil subject: it returns a batch,
one request per identity. -/
theorem parseConfigToNodes_feeds_projector (cConfig : CryptoConfig)
    (typeString : NodeType → String) :
    (∀ n ∈ (parseConfigToNodes cConfig).1,
        n.Subject ≠ none ∧ ParseSubject n.Subject ≠ none
          ∧ ((∃ v ∈ cConfig.OrdererOrgs,
                n ∈ resolve cConfig.Subject cConfig.Output [v] [])
              ∨ (∃ v ∈ cConfig.PeerOrgs,
                n ∈ resolve cConfig.Subject cConfig.Output [] [v])))
      ∧ (∀ v ∈ cConfig.OrdererOrgs, ∀ n ∈ resolve cConfig.Subject cConfig.Output [v] [],
          n ∈ (parseConfigToNodes cConfig).1 ∧ n.CaFile = v.CaFile ∧ n.OrgName = v.Name)
      ∧ (∀ v ∈ cConfig.PeerOrgs, ∀ n ∈ resolve cConfig.Subject cConfig.Output [] [v],
          n ∈ (parseConfigToNodes cConfig).1 ∧ n.CaFile = v.CaFile ∧ n.OrgName = v.Name)
      ∧ (∃ batch : SpeConfig,
          ParseNodesToSpeConfig typeString (parseConfigToNodes cConfig).1 =
              some (some batch, none)
            ∧ batch.Nodes.length = (parseConfigToNodes cConfig).1.length) := by
  refine ⟨?_, ?_, ?_, ?_⟩
  · intro n hn
    refine ⟨subject_present_of_mem_parse cConfig n hn, ?_, (mem_parse_iff cConfig n).mp hn⟩
    rw [subject_of_mem_parse cConfig n hn]
    simp [getSubject, ParseSubject_some]
  · intro v hv n hn
    refine ⟨(mem_parse_iff cConfig n).mpr (Or.inl ⟨v, hv, hn⟩), ?_⟩
    rw [resolve_orderer_single] at hn
    simp only [ordererOrgNodes, List.mem_append, List.mem_map] at hn
    rcases hn with ⟨o, _, rfl⟩ | ⟨item, _, rfl⟩ <;> exact ⟨rfl, rfl⟩
  · intro v hv n hn
    refine ⟨(mem_parse_iff cConfig n).mpr (Or.inr ⟨v, hv, hn⟩), ?_⟩
    rw [resolve_peer_single] at hn
    simp only [peerOrgNodes, List.mem_append, List.mem_map] at hn
    rcases hn with ⟨o, _, rfl⟩ | ⟨item, _, rfl⟩ <;> exact ⟨rfl, rfl⟩
  · refine ⟨{ Nodes := (parseConfigToNodes cConfig).1.map (requestOf typeString) },
      ParseNodesToSpeConfig_present typeString _ (subject_present_of_mem_parse cConfig), ?_⟩
    simp

/-- C20: end to end, every request of
`ParseNodesToSpeConfig (parseConfigToNodes description)` has an enrollment
subject whose Country, Province and Locality are the global subject's country
and whose Organization and OrganizationalUnit are the empty string: the same
flattened subject for every request of the batch, with nothing of the
identity's name in it. -/
theorem end_to_end_enroll_subject (cConfig : CryptoConfig)
    (typeString : NodeType → String) :
    ∃ batch : SpeConfig,
      ParseNodesToSpeConfig typeString (parseConfigToNodes cConfig).1 =
          some (some batch, none)
        ∧ batch.Nodes.length = (parseConfigToNodes cConfig).1.length
        ∧ (∀ r ∈ batch.Nodes,
            r.Enroll.Subject =
              { Country := cConfig.Subject.Country
                Province := cConfig.Subject.Country
                Locality := cConfig.Subject.Country
                Organization := ""
                OrganizationalUnit := "" })
        ∧ (∀ r1 ∈ batch.Nodes, ∀ r2 ∈ batch.Nodes, r1.Enroll.Subject = r2.Enroll.Subject) := by
  have hsub : ∀ r ∈ (parseConfigToNodes cConfig).1.map (requestOf typeString),
      r.Enroll.Subject =
        { Country := cConfig.Subject.Country
          Province := cConfig.Subject.Country
          Locality := cConfig.Subject.Country
          Organization := ""
          OrganizationalUnit := "" } := by
    intro r hr
    obtain ⟨n, hn, rfl⟩ := List.mem_map.mp hr
    simp [requestOf, subject_of_mem_parse cConfig n hn, getSubject, ParseSubject_some]
  refine ⟨{ Nodes := (parseConfigToNodes cConfig).1.map (requestOf typeString) },
    ParseNodesToSpeConfig_present typeString _ (subject_present_of_mem_parse cConfig),
    by simp, hsub, ?_⟩
  intro r1 h1 r2 h2
  rw [hsub r1 h1, hsub r2 h2]

end Cuttle
